import Mathlib

/-!
Verification development for the lock-free logging core in
`src/loadgen/logging.cc` (namespace `mlperf`).

The concurrency core is shallowly embedded as follows.

* A `TLQ` structure mirrors the fields of the C++ `TlsLogger` class
  (`i_read_`, `entries_[2]`, `entry_states_[2]`, `i_write_`,
  `log_cas_fail_count_`, `swap_buffers_slot_retry_count_`,
  `unread_swaps_`, `i_write_prev_`).  The two-valued buffer index
  `size_t ∈ {0,1}` (always manipulated with `^= 1`) is modelled as
  `Bool` (`0 ↦ false`, `1 ↦ true`, `^1 ↦ !`).  Deferred log actions
  (`AsyncLogEntry`) are opaque to the core, so they are modelled as
  `Nat` payloads.
* Each member function of `TlsLogger` becomes a pure function on `TLQ`.
  A `compare_exchange_strong` becomes a test of the current value: the
  success/failure of the CAS is returned as a `Bool` so that the error
  branches of the source (`LogErrorSync` + `assert`) stay visible.
* The interaction between one producer thread (`TlsLogger::Log`) and the
  single consumer (`Logger::IOThread`) acting on that producer's queue is
  modelled as a small-step transition system `Step` over `Sys` with
  sequentially consistent interleaving semantics: every atomic access of
  the source is a separate transition, so a value loaded by the producer
  can be stale by the time of its CAS exactly when a consumer swap was
  interleaved.  The swap-request ring is abstracted, for this one queue,
  to two booleans (`ring`: a request posted by `RequestSwapBuffers` is
  pending in the ring; `gath`: the request was gathered into
  `threads_to_swap_` / `threads_to_swap_deferred_`); the slot-level
  behaviour of the ring is verified separately on the `Ring` model below.
* The sequential parts (ring gather, registry, orphanage, control calls)
  are embedded directly as pure functions; order-sensitive claims about
  them are captured by explicit event traces.
-/

namespace MlperfLogging

/-- The `EntryState` enum of `TlsLogger` (logging.cc line 93). -/
inductive EntryState where
  | Unlocked
  | ReadLock
  | WriteLock
deriving DecidableEq, Repr

/-- State of one `TlsLogger` (logging.cc lines 91-112).  Deferred actions are
modelled as `Nat` payloads. -/
structure TLQ where
  i_read : Bool
  entries0 : List Nat
  entries1 : List Nat
  state0 : EntryState
  state1 : EntryState
  i_write : Bool
  log_cas_fail_count : Nat
  swap_buffers_slot_retry_count : Nat
  unread_swaps : Nat
  i_write_prev : Bool
deriving DecidableEq, Repr

namespace TLQ

/-- `entries_[b]`. -/
def ent (t : TLQ) : Bool → List Nat
  | false => t.entries0
  | true => t.entries1

/-- `entry_states_[b]`. -/
def st (t : TLQ) : Bool → EntryState
  | false => t.state0
  | true => t.state1

/-- Store into `entry_states_[b]`. -/
def setSt (t : TLQ) : Bool → EntryState → TLQ
  | false, v => { t with state0 := v }
  | true, v => { t with state1 := v }

/-- Store into `entries_[b]`. -/
def setEnt (t : TLQ) : Bool → List Nat → TLQ
  | false, l => { t with entries0 := l }
  | true, l => { t with entries1 := l }

/-- Member initializers of `TlsLogger` (lines 96-109): `state0 = ReadLock`,
`state1 = Unlocked`, `i_write = 1`, `i_read = 0`, `i_write_prev = 0`,
both buffers empty, counters zero. -/
def init : TLQ :=
  { i_read := false
    entries0 := []
    entries1 := []
    state0 := EntryState.ReadLock
    state1 := EntryState.Unlocked
    i_write := true
    log_cas_fail_count := 0
    swap_buffers_slot_retry_count := 0
    unread_swaps := 0
    i_write_prev := false }

/-- One attempt of the CAS loop in `TlsLogger::Log` (lines 442-457): CAS
`entry_states_[b]` from `Unlocked` to `WriteLock`; on failure the fail
counter is bumped.  Returns the CAS success flag. -/
def logCasAttempt (t : TLQ) (b : Bool) : TLQ × Bool :=
  if t.st b = EntryState.Unlocked then (t.setSt b EntryState.WriteLock, true)
  else ({ t with log_cas_fail_count := t.log_cas_fail_count + 1 }, false)

/-- The append in `TlsLogger::Log` (line 458): `entries_[b].emplace_back`. -/
def logAppend (t : TLQ) (b : Bool) (e : Nat) : TLQ :=
  t.setEnt b (t.ent b ++ [e])

/-- The unlock CAS in `TlsLogger::Log` (lines 462-468): CAS
`entry_states_[b]` from `WriteLock` back to `Unlocked`; the source logs an
error and asserts if this fails. -/
def logRelease (t : TLQ) (b : Bool) : TLQ × Bool :=
  if t.st b = EntryState.WriteLock then (t.setSt b EntryState.Unlocked, true)
  else (t, false)

/-- The tail of `TlsLogger::Log` (lines 470-474): compare the buffer index
`b` that was written against `i_write_prev_`; when they differ a swap is
requested and `i_write_prev_` is updated.  Returns
`write_buffer_swapped`. -/
def logFinish (t : TLQ) (b : Bool) : TLQ × Bool :=
  if t.i_write_prev = b then (t, false)
  else ({ t with i_write_prev := b }, true)

/-- `TlsLogger::SwapBuffers` (lines 477-491): CAS `entry_states_[i_read_]`
from `ReadLock` to `Unlocked` (on failure the source logs an error and
asserts but still executes the remaining statements), then
`i_write_ = i_read_`, `i_read_ ^= 1`, `unread_swaps_++`.  Returns the CAS
success flag. -/
def swapBuffers (t : TLQ) : TLQ × Bool :=
  let ok : Bool := decide (t.st t.i_read = EntryState.ReadLock)
  let t1 := if ok then t.setSt t.i_read EntryState.Unlocked else t
  ({ t1 with
      i_write := t.i_read
      i_read := !t.i_read
      unread_swaps := t.unread_swaps + 1 }, ok)

/-- `TlsLogger::StartReadingEntries` (lines 494-502): CAS
`entry_states_[i_read_]` from `Unlocked` to `ReadLock`; on success return
the read buffer, otherwise return `nullptr` (here `none`). -/
def startReadingEntries (t : TLQ) : Option (List Nat) × TLQ :=
  if t.st t.i_read = EntryState.Unlocked then
    (some (t.ent t.i_read), t.setSt t.i_read EntryState.ReadLock)
  else (none, t)

/-- `TlsLogger::FinishReadingEntries` (lines 504-507): clear
`entries_[i_read_]` and decrement `unread_swaps_`.  The state word is not
touched, so the read buffer stays `ReadLock`ed until the next swap. -/
def finishReadingEntries (t : TLQ) : TLQ :=
  { t.setEnt t.i_read [] with unread_swaps := t.unread_swaps - 1 }

/-- `TlsLogger::ReadBufferHasBeenConsumed` (line 509). -/
def readBufferHasBeenConsumed (t : TLQ) : Bool :=
  t.unread_swaps == 0

/-- `TlsLogger::ReportLogCasFailCount` (lines 77-81): load the counter and
`fetch_sub` the loaded value. -/
def reportLogCasFailCount (t : TLQ) : Nat × TLQ :=
  (t.log_cas_fail_count,
   { t with log_cas_fail_count := t.log_cas_fail_count - t.log_cas_fail_count })

/-- `TlsLogger::ReportSwapBuffersSlotRetryCount` (lines 83-87). -/
def reportSwapBuffersSlotRetryCount (t : TLQ) : Nat × TLQ :=
  (t.swap_buffers_slot_retry_count,
   { t with swap_buffers_slot_retry_count :=
      t.swap_buffers_slot_retry_count - t.swap_buffers_slot_retry_count })

@[simp] theorem st_setSt (t : TLQ) (b c : Bool) (v : EntryState) :
    (t.setSt b v).st c = if c = b then v else t.st c := by
  cases b <;> cases c <;> simp [setSt, st]

@[simp] theorem ent_setSt (t : TLQ) (b c : Bool) (v : EntryState) :
    (t.setSt b v).ent c = t.ent c := by
  cases b <;> cases c <;> simp [setSt, ent]

@[simp] theorem i_read_setSt (t : TLQ) (b : Bool) (v : EntryState) :
    (t.setSt b v).i_read = t.i_read := by
  cases b <;> simp [setSt]

@[simp] theorem i_write_setSt (t : TLQ) (b : Bool) (v : EntryState) :
    (t.setSt b v).i_write = t.i_write := by
  cases b <;> simp [setSt]

@[simp] theorem unread_setSt (t : TLQ) (b : Bool) (v : EntryState) :
    (t.setSt b v).unread_swaps = t.unread_swaps := by
  cases b <;> simp [setSt]

@[simp] theorem iwp_setSt (t : TLQ) (b : Bool) (v : EntryState) :
    (t.setSt b v).i_write_prev = t.i_write_prev := by
  cases b <;> simp [setSt]

@[simp] theorem st_setEnt (t : TLQ) (b c : Bool) (l : List Nat) :
    (t.setEnt b l).st c = t.st c := by
  cases b <;> cases c <;> simp [setEnt, st]

@[simp] theorem ent_setEnt (t : TLQ) (b c : Bool) (l : List Nat) :
    (t.setEnt b l).ent c = if c = b then l else t.ent c := by
  cases b <;> cases c <;> simp [setEnt, ent]

@[simp] theorem i_read_setEnt (t : TLQ) (b : Bool) (l : List Nat) :
    (t.setEnt b l).i_read = t.i_read := by
  cases b <;> simp [setEnt]

@[simp] theorem i_write_setEnt (t : TLQ) (b : Bool) (l : List Nat) :
    (t.setEnt b l).i_write = t.i_write := by
  cases b <;> simp [setEnt]

@[simp] theorem unread_setEnt (t : TLQ) (b : Bool) (l : List Nat) :
    (t.setEnt b l).unread_swaps = t.unread_swaps := by
  cases b <;> simp [setEnt]

@[simp] theorem iwp_setEnt (t : TLQ) (b : Bool) (l : List Nat) :
    (t.setEnt b l).i_write_prev = t.i_write_prev := by
  cases b <;> simp [setEnt]

@[simp] theorem st_bumpFail (t : TLQ) (n : Nat) (c : Bool) :
    ({ t with log_cas_fail_count := n } : TLQ).st c = t.st c := by
  cases c <;> rfl

@[simp] theorem ent_bumpFail (t : TLQ) (n : Nat) (c : Bool) :
    ({ t with log_cas_fail_count := n } : TLQ).ent c = t.ent c := by
  cases c <;> rfl

@[simp] theorem st_setIwp (t : TLQ) (v : Bool) (c : Bool) :
    ({ t with i_write_prev := v } : TLQ).st c = t.st c := by
  cases c <;> rfl

@[simp] theorem ent_setIwp (t : TLQ) (v : Bool) (c : Bool) :
    ({ t with i_write_prev := v } : TLQ).ent c = t.ent c := by
  cases c <;> rfl

@[simp] theorem st_setUnread (t : TLQ) (n : Nat) (c : Bool) :
    ({ t with unread_swaps := n } : TLQ).st c = t.st c := by
  cases c <;> rfl

@[simp] theorem ent_setUnread (t : TLQ) (n : Nat) (c : Bool) :
    ({ t with unread_swaps := n } : TLQ).ent c = t.ent c := by
  cases c <;> rfl

theorem st_swapShape (t : TLQ) (a b : Bool) (n : Nat) (c : Bool) :
    ({ t with i_write := a, i_read := b, unread_swaps := n } : TLQ).st c
      = t.st c := by
  cases c <;> rfl

theorem ent_swapShape (t : TLQ) (a b : Bool) (n : Nat) (c : Bool) :
    ({ t with i_write := a, i_read := b, unread_swaps := n } : TLQ).ent c
      = t.ent c := by
  cases c <;> rfl

@[simp] theorem swapBuffers_fst_i_read (t : TLQ) :
    t.swapBuffers.1.i_read = !t.i_read := rfl

@[simp] theorem swapBuffers_fst_i_write (t : TLQ) :
    t.swapBuffers.1.i_write = t.i_read := rfl

@[simp] theorem swapBuffers_fst_unread (t : TLQ) :
    t.swapBuffers.1.unread_swaps = t.unread_swaps + 1 := rfl

@[simp] theorem swapBuffers_fst_iwp (t : TLQ) :
    t.swapBuffers.1.i_write_prev = t.i_write_prev := by
  simp only [swapBuffers]
  split <;> simp

@[simp] theorem swapBuffers_fst_ent (t : TLQ) (c : Bool) :
    t.swapBuffers.1.ent c = t.ent c := by
  simp only [swapBuffers, ent_swapShape]
  split <;> simp

@[simp] theorem swapBuffers_fst_entries0 (t : TLQ) :
    t.swapBuffers.1.entries0 = t.entries0 := by
  have h := swapBuffers_fst_ent t false
  simpa [ent] using h

@[simp] theorem swapBuffers_fst_entries1 (t : TLQ) :
    t.swapBuffers.1.entries1 = t.entries1 := by
  have h := swapBuffers_fst_ent t true
  simpa [ent] using h

@[simp] theorem lcfc_setSt (t : TLQ) (b : Bool) (v : EntryState) :
    (t.setSt b v).log_cas_fail_count = t.log_cas_fail_count := by
  cases b <;> simp [setSt]

@[simp] theorem sbsrc_setSt (t : TLQ) (b : Bool) (v : EntryState) :
    (t.setSt b v).swap_buffers_slot_retry_count
      = t.swap_buffers_slot_retry_count := by
  cases b <;> simp [setSt]

@[simp] theorem swapBuffers_fst_lcfc (t : TLQ) :
    t.swapBuffers.1.log_cas_fail_count = t.log_cas_fail_count := by
  by_cases h : t.st t.i_read = EntryState.ReadLock <;> simp [swapBuffers, h]

@[simp] theorem swapBuffers_fst_sbsrc (t : TLQ) :
    t.swapBuffers.1.swap_buffers_slot_retry_count
      = t.swap_buffers_slot_retry_count := by
  by_cases h : t.st t.i_read = EntryState.ReadLock <;> simp [swapBuffers, h]

theorem swapBuffers_fst_st_rl (t : TLQ) (c : Bool)
    (h : t.st t.i_read = EntryState.ReadLock) :
    t.swapBuffers.1.st c =
      if c = t.i_read then EntryState.Unlocked else t.st c := by
  simp only [swapBuffers, st_swapShape]
  rw [h]
  simp

@[simp] theorem swapBuffers_snd (t : TLQ) :
    t.swapBuffers.2 = decide (t.st t.i_read = EntryState.ReadLock) := rfl

@[simp] theorem finishReading_unread (t : TLQ) :
    t.finishReadingEntries.unread_swaps = t.unread_swaps - 1 := rfl

@[simp] theorem finishReading_i_read (t : TLQ) :
    t.finishReadingEntries.i_read = t.i_read := by
  simp [finishReadingEntries]

@[simp] theorem finishReading_i_write (t : TLQ) :
    t.finishReadingEntries.i_write = t.i_write := by
  simp [finishReadingEntries]

@[simp] theorem finishReading_iwp (t : TLQ) :
    t.finishReadingEntries.i_write_prev = t.i_write_prev := by
  simp [finishReadingEntries]

@[simp] theorem finishReading_st (t : TLQ) (c : Bool) :
    t.finishReadingEntries.st c = t.st c := by
  simp only [finishReadingEntries, st_setUnread, st_setEnt]

@[simp] theorem finishReading_ent (t : TLQ) (c : Bool) :
    t.finishReadingEntries.ent c = if c = t.i_read then [] else t.ent c := by
  simp only [finishReadingEntries, ent_setUnread, ent_setEnt]

end TLQ

/-- Program counter of the producer inside `TlsLogger::Log` (lines 438-475).
`loop b f e` is the CAS loop about to try buffer `b` with `f` failures so
far while submitting entry `e`; `locked b e` is after a successful
`Unlocked → WriteLock` CAS and before the append; `rel b` is after the
append and before the `WriteLock → Unlocked` CAS; `fin b` is before the
`i_write_prev_` comparison. -/
inductive PPC where
  | idle
  | loop (b : Bool) (f : Nat) (e : Nat)
  | locked (b : Bool) (e : Nat)
  | rel (b : Bool)
  | fin (b : Bool)
deriving DecidableEq, Repr

namespace PPC

/-- The entry currently carried by the producer that is not yet stored in a
buffer. -/
def infl : PPC → List Nat
  | .loop _ _ e => [e]
  | .locked _ e => [e]
  | _ => []

/-- The producer holds the `WriteLock` of buffer `b`. -/
def holdsWL : PPC → Bool → Prop
  | .locked b _, c => b = c
  | .rel b, c => b = c
  | _, _ => False

end PPC

/-- Combined state of one `TlsLogger`, its producer thread inside
`TlsLogger::Log`, and the consumer-side bookkeeping of `Logger::IOThread`
for that queue.  `ring` means a swap request posted by
`Logger::RequestSwapBuffers` for this queue is pending in the ring;
`gath` means it has been gathered into `threads_to_swap_` (or deferred
into `threads_to_swap_deferred_`); `inRead` means the queue is in
`threads_to_read_`; `reading` means `StartReadingEntries` succeeded and the
drain has not yet finished.  `sub` is the producer's submission history and
`del` the sequence of entries the consumer has invoked against `AsyncLog`.
`err` records whether any of the assertion branches of the source fired. -/
structure Sys where
  tlq : TLQ
  ring : Bool
  gath : Bool
  inRead : Bool
  reading : Bool
  pc : PPC
  sub : List Nat
  del : List Nat
  err : Bool
deriving DecidableEq, Repr

namespace Sys

/-- Initial state: a freshly constructed `TlsLogger`, idle producer, no
pending requests. -/
def init : Sys :=
  { tlq := TLQ.init
    ring := false
    gath := false
    inRead := false
    reading := false
    pc := PPC.idle
    sub := []
    del := []
    err := false }

/-- Producer enters `TlsLogger::Log` for entry `e`: the relaxed load of
`i_write_` (line 441). -/
def stepStartLog (s : Sys) (e : Nat) : Sys :=
  { s with pc := PPC.loop s.tlq.i_write 0 e, sub := s.sub ++ [e] }

/-- One iteration of the CAS loop (lines 442-457).  On failure the local
index is flipped, the fail count incremented, and when the fail count
reaches 3 the source reports a synchronous error and asserts (`err`). -/
def stepCas (s : Sys) (b : Bool) (f : Nat) (e : Nat) : Sys :=
  if (s.tlq.logCasAttempt b).2 then
    { s with tlq := (s.tlq.logCasAttempt b).1, pc := PPC.locked b e }
  else
    { s with
      tlq := (s.tlq.logCasAttempt b).1
      pc := PPC.loop (!b) (f + 1) e
      err := s.err || decide (3 ≤ f + 1) }

/-- The append (line 458). -/
def stepAppend (s : Sys) (b : Bool) (e : Nat) : Sys :=
  { s with tlq := s.tlq.logAppend b e, pc := PPC.rel b }

/-- The unlock CAS (lines 462-468); its failure branch asserts. -/
def stepRelease (s : Sys) (b : Bool) : Sys :=
  { s with
    tlq := (s.tlq.logRelease b).1
    pc := PPC.fin b
    err := s.err || !(s.tlq.logRelease b).2 }

/-- The `i_write_prev_` comparison (lines 470-474).  When the written
buffer differs from `i_write_prev_`, `Logger::RequestSwapBuffers` posts a
request to the ring. -/
def stepFinish (s : Sys) (b : Bool) : Sys :=
  { s with
    tlq := (s.tlq.logFinish b).1
    pc := PPC.idle
    ring := s.ring || (s.tlq.logFinish b).2 }

/-- The consumer gathers the pending ring request for this queue
(`GatherRetrySwapRequests` / `GatherNewSwapRequests`, lines 296-341). -/
def stepGather (s : Sys) : Sys :=
  { s with ring := false, gath := true }

/-- The consumer swaps this queue's buffers (line 364) and pushes it to
`threads_to_read_`; only reachable after `ReadBufferHasBeenConsumed`
returned true (line 363), otherwise the queue is deferred unchanged. -/
def stepSwap (s : Sys) : Sys :=
  { s with
    tlq := s.tlq.swapBuffers.1
    gath := false
    inRead := true
    err := s.err || !s.tlq.swapBuffers.2 }

/-- The consumer's `StartReadingEntries` call (line 385); on failure the
queue is simply retried next iteration (line 387), a no-op here. -/
def stepStartRead (s : Sys) : Sys :=
  if (s.tlq.startReadingEntries).1.isSome then
    { s with tlq := (s.tlq.startReadingEntries).2, reading := true }
  else s

/-- The consumer invokes every entry of the read buffer against `AsyncLog`
in order (lines 393-396) and calls `FinishReadingEntries` (line 397),
removing the queue from `threads_to_read_`. -/
def stepDrainFin (s : Sys) : Sys :=
  { s with
    del := s.del ++ s.tlq.ent s.tlq.i_read
    tlq := s.tlq.finishReadingEntries
    reading := false
    inRead := false }

end Sys

/-- Interleaving small-step semantics of one producer running
`TlsLogger::Log` concurrently with the single consumer thread working on
that producer's queue. -/
inductive Step : Sys → Sys → Prop where
  | startLog (s : Sys) (e : Nat) : s.pc = PPC.idle → Step s (s.stepStartLog e)
  | casTry (s : Sys) (b : Bool) (f e : Nat) :
      s.pc = PPC.loop b f e → Step s (s.stepCas b f e)
  | append (s : Sys) (b : Bool) (e : Nat) :
      s.pc = PPC.locked b e → Step s (s.stepAppend b e)
  | release (s : Sys) (b : Bool) : s.pc = PPC.rel b → Step s (s.stepRelease b)
  | finish (s : Sys) (b : Bool) : s.pc = PPC.fin b → Step s (s.stepFinish b)
  | gather (s : Sys) : s.ring = true → Step s s.stepGather
  | swap (s : Sys) : s.gath = true → s.tlq.readBufferHasBeenConsumed = true →
      Step s s.stepSwap
  | startRead (s : Sys) : s.inRead = true → s.reading = false →
      Step s s.stepStartRead
  | drainFin (s : Sys) : s.reading = true → Step s s.stepDrainFin

/-- States reachable from the initial state. -/
inductive Reachable : Sys → Prop where
  | init : Reachable Sys.init
  | step {s s' : Sys} : Reachable s → Step s s' → Reachable s'

/-- Producer-program-counter-dependent part of the global invariant. -/
def PcInv (p : PPC) (t : TLQ) (ring gath : Bool) : Prop :=
  match p with
  | PPC.idle => True
  | PPC.loop b f _ =>
      f ≤ 1
      ∧ (f = 1 → b = t.i_write ∧ ring = false ∧ gath = false)
      ∧ (b = t.i_read →
          (ring = false ∧ gath = false) ∧ t.i_write_prev = b
          ∧ (t.st t.i_read = EntryState.Unlocked → t.ent t.i_write = []))
  | PPC.locked b _ =>
      t.st b = EntryState.WriteLock
      ∧ (b = t.i_read → t.ent t.i_write = [] ∧ t.i_write_prev = b)
  | PPC.rel b =>
      t.st b = EntryState.WriteLock
      ∧ (b = t.i_read → t.ent t.i_write = [] ∧ t.i_write_prev = b)
  | PPC.fin b => b = t.i_read → t.i_write_prev = b

/-- Global inductive invariant of the producer/consumer protocol. -/
structure Inv (s : Sys) : Prop where
  ir_eq : s.tlq.i_read = !s.tlq.i_write
  no_err : s.err = false
  inRead_iff : s.inRead = true ↔ s.tlq.unread_swaps = 1
  unread_le : s.tlq.unread_swaps ≤ 1
  reading_props : s.reading = true →
    s.inRead = true ∧ s.tlq.st s.tlq.i_read = EntryState.ReadLock
  residual_rl : s.tlq.unread_swaps = 0 →
    s.tlq.st s.tlq.i_read = EntryState.ReadLock
  drained : s.tlq.unread_swaps = 0 → s.tlq.ent s.tlq.i_read = []
  iw_not_rl : s.tlq.st s.tlq.i_write ≠ EntryState.ReadLock
  wl_owner : ∀ b, s.tlq.st b = EntryState.WriteLock → s.pc.holdsWL b
  not_ring_gath : ¬(s.ring = true ∧ s.gath = true)
  req_iwp : s.ring = true ∨ s.gath = true →
    s.tlq.i_write_prev = s.tlq.i_write
  order : s.del ++ s.tlq.ent s.tlq.i_read ++ s.tlq.ent s.tlq.i_write
      ++ s.pc.infl = s.sub
  pc_inv : PcInv s.pc s.tlq s.ring s.gath

theorem bool_ne_not (b : Bool) : b ≠ !b := by cases b <;> decide

theorem inv_init : Inv Sys.init := by
  refine ⟨rfl, rfl, ?_, ?_, ?_, ?_, ?_, ?_, ?_, ?_, ?_, rfl, ?_⟩
  · simp [Sys.init, TLQ.init]
  · simp [Sys.init, TLQ.init]
  · simp [Sys.init]
  · intro _; rfl
  · intro _; rfl
  · simp [Sys.init, TLQ.init, TLQ.st]
  · intro b hb
    cases b <;> simp [Sys.init, TLQ.init, TLQ.st] at hb
  · simp [Sys.init]
  · simp [Sys.init]
  · simp [Sys.init, PcInv]

theorem inv_stepStartLog {s : Sys} (e : Nat) (hI : Inv s) (hpc : s.pc = PPC.idle) :
    Inv (s.stepStartLog e) := by
  obtain ⟨h1, h2, h3, h4, h5, h6, h7, h8, h9, h10, h11, h12, h13⟩ := hI
  refine ⟨?_, ?_, ?_, ?_, ?_, ?_, ?_, ?_, ?_, ?_, ?_, ?_, ?_⟩
  · simpa [Sys.stepStartLog] using h1
  · simpa [Sys.stepStartLog] using h2
  · simpa [Sys.stepStartLog] using h3
  · simpa [Sys.stepStartLog] using h4
  · simpa [Sys.stepStartLog] using h5
  · simpa [Sys.stepStartLog] using h6
  · simpa [Sys.stepStartLog] using h7
  · simpa [Sys.stepStartLog] using h8
  · intro b hb
    have hwl := h9 b (by simpa [Sys.stepStartLog] using hb)
    rw [hpc] at hwl
    simp [PPC.holdsWL] at hwl
  · simpa [Sys.stepStartLog] using h10
  · simpa [Sys.stepStartLog] using h11
  · rw [hpc] at h12
    simp only [PPC.infl, List.append_nil] at h12
    simp only [Sys.stepStartLog, PPC.infl]
    rw [h12]
  · simp only [Sys.stepStartLog, PcInv]
    refine ⟨by omega, by omega, ?_⟩
    intro hb
    rw [h1] at hb
    exact absurd hb (bool_ne_not _)

theorem entryState_cases (v : EntryState) :
    v = EntryState.Unlocked ∨ v = EntryState.ReadLock ∨ v = EntryState.WriteLock := by
  cases v <;> simp

theorem inv_stepCas {s : Sys} (b : Bool) (f e : Nat) (hI : Inv s)
    (hpc : s.pc = PPC.loop b f e) : Inv (s.stepCas b f e) := by
  obtain ⟨h1, h2, h3, h4, h5, h6, h7, h8, h9, h10, h11, h12, h13⟩ := hI
  rw [hpc] at h13
  simp only [PcInv] at h13
  obtain ⟨hf1, hf2, hf3⟩ := h13
  rw [hpc] at h12
  simp only [PPC.infl] at h12
  by_cases hU : s.tlq.st b = EntryState.Unlocked
  · -- the CAS from Unlocked to WriteLock succeeds
    have hred : s.stepCas b f e =
        { s with tlq := s.tlq.setSt b EntryState.WriteLock, pc := PPC.locked b e } := by
      simp [Sys.stepCas, TLQ.logCasAttempt, hU]
    rw [hred]
    refine ⟨?_, ?_, ?_, ?_, ?_, ?_, ?_, ?_, ?_, ?_, ?_, ?_, ?_⟩
    · simpa using h1
    · simpa using h2
    · simpa using h3
    · simpa using h4
    · intro hrd
      obtain ⟨hin, hrl⟩ := h5 hrd
      have hne : s.tlq.i_read ≠ b := by
        intro hh
        rw [hh, hU] at hrl
        exact absurd hrl (by decide)
      exact ⟨hin, by simpa [hne] using hrl⟩
    · intro h0
      simp only [TLQ.unread_setSt] at h0
      have hrl := h6 h0
      have hne : s.tlq.i_read ≠ b := by
        intro hh
        rw [hh, hU] at hrl
        exact absurd hrl (by decide)
      simpa [hne] using hrl
    · intro h0
      simp only [TLQ.unread_setSt] at h0
      simpa using h7 h0
    · by_cases hw : s.tlq.i_write = b
      · simp [hw]
      · simpa [hw] using h8
    · intro c hc
      by_cases hcb : c = b
      · subst hcb
        simp [PPC.holdsWL]
      · simp only [TLQ.st_setSt, if_neg hcb] at hc
        have hwl := h9 c hc
        rw [hpc] at hwl
        simp [PPC.holdsWL] at hwl
    · simpa using h10
    · intro hh
      simpa using h11 hh
    · simpa [PPC.infl] using h12
    · simp only [PcInv]
      refine ⟨by simp, ?_⟩
      intro hb
      simp only [TLQ.i_read_setSt] at hb
      obtain ⟨hrg, hiwp, hst⟩ := hf3 hb
      have hU' : s.tlq.st s.tlq.i_read = EntryState.Unlocked := by
        rw [← hb]; exact hU
      exact ⟨by simpa using hst hU', by simpa using hiwp⟩
  · -- the CAS fails: the buffer must be ReadLocked by the consumer
    have hRL : s.tlq.st b = EntryState.ReadLock := by
      rcases entryState_cases (s.tlq.st b) with h | h | h
      · exact absurd h hU
      · exact h
      · have hwl := h9 b h
        rw [hpc] at hwl
        simp [PPC.holdsWL] at hwl
    have hbw : b ≠ s.tlq.i_write := by
      intro hh
      rw [hh] at hRL
      exact h8 hRL
    have hbir : b = s.tlq.i_read := by
      rw [h1]
      cases b <;> cases hw : s.tlq.i_write <;> simp_all
    obtain ⟨hrg0, hiwpF, _⟩ := hf3 hbir
    obtain ⟨hrF, hgF⟩ := hrg0
    have hf0 : f = 0 := by
      rcases Nat.lt_or_ge f 1 with h | h
      · omega
      · have hf1' : f = 1 := by omega
        subst hf1'
        obtain ⟨hbw', _, _⟩ := hf2 rfl
        rw [hbw'] at hbir
        rw [← hbir] at h1
        exact absurd h1 (bool_ne_not _)
    subst hf0
    have hred : s.stepCas b 0 e =
        { s with
          tlq := { s.tlq with log_cas_fail_count := s.tlq.log_cas_fail_count + 1 }
          pc := PPC.loop (!b) 1 e
          err := s.err } := by
      simp [Sys.stepCas, TLQ.logCasAttempt, hU]
    rw [hred]
    refine ⟨?_, ?_, ?_, ?_, ?_, ?_, ?_, ?_, ?_, ?_, ?_, ?_, ?_⟩
    · simpa using h1
    · simpa using h2
    · simpa using h3
    · simpa using h4
    · intro hrd
      obtain ⟨hin, hrl⟩ := h5 hrd
      exact ⟨hin, by simpa using hrl⟩
    · intro h0
      simpa using h6 h0
    · intro h0
      simpa using h7 h0
    · simpa using h8
    · intro c hc
      simp only [TLQ.st_bumpFail] at hc
      have hwl := h9 c hc
      rw [hpc] at hwl
      simp [PPC.holdsWL] at hwl
    · simpa using h10
    · intro hh
      simpa using h11 hh
    · simpa [PPC.infl] using h12
    · simp only [PcInv]
      refine ⟨by omega, ?_, ?_⟩
      · intro _
        refine ⟨?_, hrF, hgF⟩
        show (!b) = s.tlq.i_write
        rw [hbir, h1]
        simp
      · intro hcontra
        have hcontra' : (!b) = s.tlq.i_read := hcontra
        rw [hbir] at hcontra'
        exact absurd hcontra'.symm (bool_ne_not _)

theorem bool_eq_or (b c : Bool) : b = c ∨ b = !c := by
  cases b <;> cases c <;> simp

theorem inv_stepAppend {s : Sys} (b : Bool) (e : Nat) (hI : Inv s)
    (hpc : s.pc = PPC.locked b e) : Inv (s.stepAppend b e) := by
  obtain ⟨h1, h2, h3, h4, h5, h6, h7, h8, h9, h10, h11, h12, h13⟩ := hI
  rw [hpc] at h13
  simp only [PcInv] at h13
  obtain ⟨hL, hLr⟩ := h13
  rw [hpc] at h12
  simp only [PPC.infl] at h12
  have hirw : s.tlq.i_read ≠ s.tlq.i_write := by
    rw [h1]
    exact Ne.symm (bool_ne_not _)
  refine ⟨?_, ?_, ?_, ?_, ?_, ?_, ?_, ?_, ?_, ?_, ?_, ?_, ?_⟩
  · simpa [Sys.stepAppend, TLQ.logAppend] using h1
  · simpa [Sys.stepAppend] using h2
  · simpa [Sys.stepAppend, TLQ.logAppend] using h3
  · simpa [Sys.stepAppend, TLQ.logAppend] using h4
  · intro hrd
    obtain ⟨hin, hrl⟩ := h5 hrd
    exact ⟨hin, by simpa [Sys.stepAppend, TLQ.logAppend] using hrl⟩
  · intro h0
    simp only [Sys.stepAppend, TLQ.logAppend, TLQ.unread_setEnt] at h0
    simpa [Sys.stepAppend, TLQ.logAppend] using h6 h0
  · intro h0
    simp only [Sys.stepAppend, TLQ.logAppend, TLQ.unread_setEnt] at h0
    have hne : s.tlq.i_read ≠ b := by
      intro hh
      have hrl := h6 h0
      rw [hh, hL] at hrl
      exact absurd hrl (by decide)
    simpa [Sys.stepAppend, TLQ.logAppend, hne] using h7 h0
  · simpa [Sys.stepAppend, TLQ.logAppend] using h8
  · intro c hc
    simp only [Sys.stepAppend, TLQ.logAppend, TLQ.st_setEnt] at hc
    have hwl := h9 c hc
    rw [hpc] at hwl
    simp only [PPC.holdsWL] at hwl
    simpa [Sys.stepAppend, PPC.holdsWL] using hwl
  · simpa [Sys.stepAppend] using h10
  · intro hh
    simpa [Sys.stepAppend, TLQ.logAppend] using
      h11 (by simpa [Sys.stepAppend] using hh)
  · rcases bool_eq_or b s.tlq.i_write with hb | hb
    · have hne : s.tlq.i_read ≠ b := by
        rw [hb]
        exact hirw
      simp only [Sys.stepAppend, TLQ.logAppend, PPC.infl, TLQ.ent_setEnt,
        TLQ.i_read_setEnt, TLQ.i_write_setEnt, if_neg hne, ← hb, if_pos rfl,
        List.append_nil]
      rw [← h12]
      simp [List.append_assoc, hb]
    · have hbir : b = s.tlq.i_read := by
        rw [hb, ← h1]
      obtain ⟨hemp, _⟩ := hLr hbir
      have hne : s.tlq.i_write ≠ b := by
        rw [hbir]
        exact Ne.symm hirw
      have hne2 : ¬(s.tlq.i_write = s.tlq.i_read) := fun hh => hirw hh.symm
      simp only [Sys.stepAppend, TLQ.logAppend, PPC.infl, TLQ.ent_setEnt,
        TLQ.i_read_setEnt, TLQ.i_write_setEnt, if_neg hne, hbir, if_pos rfl,
        if_neg hne2, List.append_nil]
      rw [hemp] at h12 ⊢
      rw [← h12]
      simp [List.append_assoc]
  · simp only [Sys.stepAppend, PcInv, TLQ.logAppend, TLQ.st_setEnt,
      TLQ.i_read_setEnt, TLQ.i_write_setEnt, TLQ.ent_setEnt]
    constructor
    · exact hL
    · intro hb
      obtain ⟨hemp, hiwp⟩ := hLr hb
      have hne : s.tlq.i_write ≠ b := by
        rw [hb]
        exact Ne.symm hirw
      refine ⟨?_, ?_⟩
      · rw [if_neg hne]
        exact hemp
      · simpa using hiwp

theorem inv_stepRelease {s : Sys} (b : Bool) (hI : Inv s)
    (hpc : s.pc = PPC.rel b) : Inv (s.stepRelease b) := by
  obtain ⟨h1, h2, h3, h4, h5, h6, h7, h8, h9, h10, h11, h12, h13⟩ := hI
  rw [hpc] at h13
  simp only [PcInv] at h13
  obtain ⟨hL, hLr⟩ := h13
  rw [hpc] at h12
  simp only [PPC.infl] at h12
  have hred : s.stepRelease b =
      { s with tlq := s.tlq.setSt b EntryState.Unlocked, pc := PPC.fin b } := by
    simp [Sys.stepRelease, TLQ.logRelease, hL]
  rw [hred]
  refine ⟨?_, ?_, ?_, ?_, ?_, ?_, ?_, ?_, ?_, ?_, ?_, ?_, ?_⟩
  · simpa using h1
  · simpa using h2
  · simpa using h3
  · simpa using h4
  · intro hrd
    obtain ⟨hin, hrl⟩ := h5 hrd
    have hne : s.tlq.i_read ≠ b := by
      intro hh
      rw [hh, hL] at hrl
      exact absurd hrl (by decide)
    exact ⟨hin, by simpa [hne] using hrl⟩
  · intro h0
    simp only [TLQ.unread_setSt] at h0
    have hrl := h6 h0
    have hne : s.tlq.i_read ≠ b := by
      intro hh
      rw [hh, hL] at hrl
      exact absurd hrl (by decide)
    simpa [hne] using hrl
  · intro h0
    simp only [TLQ.unread_setSt] at h0
    simpa using h7 h0
  · by_cases hw : s.tlq.i_write = b
    · simp [hw]
    · simpa [hw] using h8
  · intro c hc
    by_cases hcb : c = b
    · rw [hcb] at hc
      simp at hc
    · simp only [TLQ.st_setSt, if_neg hcb] at hc
      have hwl := h9 c hc
      rw [hpc] at hwl
      simp only [PPC.holdsWL] at hwl
      exact absurd hwl.symm hcb
  · simpa using h10
  · intro hh
    simpa using h11 hh
  · simpa [PPC.infl] using h12
  · simp only [PcInv, TLQ.i_read_setSt]
    intro hb
    simpa using (hLr hb).2

theorem inv_stepFinish {s : Sys} (b : Bool) (hI : Inv s)
    (hpc : s.pc = PPC.fin b) : Inv (s.stepFinish b) := by
  obtain ⟨h1, h2, h3, h4, h5, h6, h7, h8, h9, h10, h11, h12, h13⟩ := hI
  rw [hpc] at h13
  simp only [PcInv] at h13
  rw [hpc] at h12
  simp only [PPC.infl, List.append_nil] at h12
  by_cases hEq : s.tlq.i_write_prev = b
  · -- the written buffer equals i_write_prev: no swap request
    have hred : s.stepFinish b = { s with pc := PPC.idle } := by
      simp [Sys.stepFinish, TLQ.logFinish, hEq]
    rw [hred]
    refine ⟨?_, ?_, ?_, ?_, ?_, ?_, ?_, ?_, ?_, ?_, ?_, ?_, ?_⟩
    · simpa using h1
    · simpa using h2
    · simpa using h3
    · simpa using h4
    · intro hrd
      obtain ⟨hin, hrl⟩ := h5 hrd
      exact ⟨hin, by simpa using hrl⟩
    · intro h0
      simpa using h6 h0
    · intro h0
      simpa using h7 h0
    · simpa using h8
    · intro c hc
      have hwl := h9 c hc
      rw [hpc] at hwl
      simp [PPC.holdsWL] at hwl
    · simpa using h10
    · intro hh
      simpa using h11 hh
    · simpa [PPC.infl] using h12
    · simp [PcInv]
  · -- the written buffer differs: a swap request is posted on the ring
    have hb_iw : b = s.tlq.i_write := by
      rcases bool_eq_or b s.tlq.i_write with hb | hb
      · exact hb
      · have hbir : b = s.tlq.i_read := by rw [hb, ← h1]
        exact absurd (h13 hbir) hEq
    have hgF : s.gath = false := by
      cases hg : s.gath
      · rfl
      · have := h11 (Or.inr hg)
        rw [hb_iw] at hEq
        exact absurd this hEq
    have hred : s.stepFinish b =
        { s with
          tlq := { s.tlq with i_write_prev := b }
          pc := PPC.idle
          ring := true } := by
      simp [Sys.stepFinish, TLQ.logFinish, hEq]
    rw [hred]
    refine ⟨?_, ?_, ?_, ?_, ?_, ?_, ?_, ?_, ?_, ?_, ?_, ?_, ?_⟩
    · simpa using h1
    · simpa using h2
    · simpa using h3
    · simpa using h4
    · intro hrd
      obtain ⟨hin, hrl⟩ := h5 hrd
      exact ⟨hin, by simpa using hrl⟩
    · intro h0
      simpa using h6 h0
    · intro h0
      simpa using h7 h0
    · simpa using h8
    · intro c hc
      simp only [TLQ.st_setIwp] at hc
      have hwl := h9 c hc
      rw [hpc] at hwl
      simp [PPC.holdsWL] at hwl
    · simp [hgF]
    · intro _
      simpa using hb_iw
    · simpa [PPC.infl] using h12
    · simp [PcInv]

theorem inv_stepGather {s : Sys} (hI : Inv s) (hr : s.ring = true) :
    Inv s.stepGather := by
  obtain ⟨h1, h2, h3, h4, h5, h6, h7, h8, h9, h10, h11, h12, h13⟩ := hI
  refine ⟨?_, ?_, ?_, ?_, ?_, ?_, ?_, ?_, ?_, ?_, ?_, ?_, ?_⟩
  · simpa [Sys.stepGather] using h1
  · simpa [Sys.stepGather] using h2
  · simpa [Sys.stepGather] using h3
  · simpa [Sys.stepGather] using h4
  · simpa [Sys.stepGather] using h5
  · simpa [Sys.stepGather] using h6
  · simpa [Sys.stepGather] using h7
  · simpa [Sys.stepGather] using h8
  · intro b hb
    exact h9 b (by simpa [Sys.stepGather] using hb)
  · simp [Sys.stepGather]
  · intro _
    simpa [Sys.stepGather] using h11 (Or.inl hr)
  · simpa [Sys.stepGather] using h12
  · simp only [Sys.stepGather]
    cases hp : s.pc with
    | idle => simp [PcInv]
    | loop b f e =>
        rw [hp] at h13
        simp only [PcInv] at h13 ⊢
        refine ⟨h13.1, ?_, ?_⟩
        · intro hf
          exact absurd hr (by simp [(h13.2.1 hf).2.1])
        · intro hb
          exact absurd hr (by simp [((h13.2.2 hb).1).1])
    | locked b e =>
        rw [hp] at h13
        simpa [PcInv] using h13
    | rel b =>
        rw [hp] at h13
        simpa [PcInv] using h13
    | fin b =>
        rw [hp] at h13
        simpa [PcInv] using h13

theorem inv_stepSwap {s : Sys} (hI : Inv s) (hg : s.gath = true)
    (hc : s.tlq.readBufferHasBeenConsumed = true) : Inv s.stepSwap := by
  obtain ⟨h1, h2, h3, h4, h5, h6, h7, h8, h9, h10, h11, h12, h13⟩ := hI
  have h0 : s.tlq.unread_swaps = 0 := by
    simpa [TLQ.readBufferHasBeenConsumed] using hc
  have hRL : s.tlq.st s.tlq.i_read = EntryState.ReadLock := h6 h0
  have hemp : s.tlq.ent s.tlq.i_read = [] := h7 h0
  have hringF : s.ring = false := by
    cases hr : s.ring
    · rfl
    · exact absurd ⟨hr, hg⟩ h10
  have hiwp : s.tlq.i_write_prev = s.tlq.i_write := h11 (Or.inr hg)
  have hInF : s.inRead = false := by
    cases hi : s.inRead
    · rfl
    · have := h3.mp hi
      omega
  have hRdF : s.reading = false := by
    cases hr : s.reading
    · rfl
    · have := (h5 hr).1
      rw [hInF] at this
      exact absurd this (by decide)
  have hiw_ir : s.tlq.i_write = !s.tlq.i_read := by
    rw [h1]
    simp
  have hst : ∀ c, s.tlq.swapBuffers.1.st c =
      if c = s.tlq.i_read then EntryState.Unlocked else s.tlq.st c :=
    fun c => TLQ.swapBuffers_fst_st_rl s.tlq c hRL
  refine ⟨?_, ?_, ?_, ?_, ?_, ?_, ?_, ?_, ?_, ?_, ?_, ?_, ?_⟩
  · simp [Sys.stepSwap]
  · simp [Sys.stepSwap, hRL, h2]
  · simp [Sys.stepSwap, h0]
  · simp [Sys.stepSwap, h0]
  · intro hrd
    have hrd2 : s.reading = true := hrd
    rw [hRdF] at hrd2
    exact absurd hrd2 (by decide)
  · intro hu
    simp [Sys.stepSwap] at hu
  · intro hu
    simp [Sys.stepSwap] at hu
  · show s.stepSwap.tlq.st s.stepSwap.tlq.i_write ≠ EntryState.ReadLock
    have hred : s.stepSwap.tlq = s.tlq.swapBuffers.1 := rfl
    rw [hred, TLQ.swapBuffers_fst_i_write, hst]
    simp
  · intro c hcw
    have hred : s.stepSwap.tlq = s.tlq.swapBuffers.1 := rfl
    rw [hred, hst c] at hcw
    by_cases hcb : c = s.tlq.i_read
    · rw [if_pos hcb] at hcw
      exact absurd hcw (by decide)
    · rw [if_neg hcb] at hcw
      exact h9 c hcw
  · simp [Sys.stepSwap]
  · intro hh
    have hh2 : s.ring = true ∨ False := by simpa [Sys.stepSwap] using hh
    rw [hringF] at hh2
    simp at hh2
  · show s.del ++ s.stepSwap.tlq.ent s.stepSwap.tlq.i_read
      ++ s.stepSwap.tlq.ent s.stepSwap.tlq.i_write ++ s.pc.infl = s.sub
    have hred : s.stepSwap.tlq = s.tlq.swapBuffers.1 := rfl
    rw [hred, TLQ.swapBuffers_fst_i_read, TLQ.swapBuffers_fst_i_write,
      TLQ.swapBuffers_fst_ent, TLQ.swapBuffers_fst_ent, hemp]
    rw [hiw_ir, hemp] at h12
    simpa using h12
  · have hred : s.stepSwap.tlq = s.tlq.swapBuffers.1 := rfl
    cases hp : s.pc with
    | idle =>
        have hpc2 : s.stepSwap.pc = PPC.idle := hp
        rw [hpc2]
        simp [PcInv]
    | loop b f e =>
        have hpc2 : s.stepSwap.pc = PPC.loop b f e := hp
        rw [hp] at h13
        simp only [PcInv] at h13
        show PcInv s.stepSwap.pc s.stepSwap.tlq s.stepSwap.ring s.stepSwap.gath
        rw [hpc2]
        simp only [PcInv, hred, TLQ.swapBuffers_fst_i_read,
          TLQ.swapBuffers_fst_i_write, TLQ.swapBuffers_fst_iwp,
          TLQ.swapBuffers_fst_ent]
        refine ⟨h13.1, ?_, ?_⟩
        · intro hf
          exact absurd hg (by simp [(h13.2.1 hf).2.2])
        · intro hb
          refine ⟨⟨?_, ?_⟩, ?_, ?_⟩
          · exact hringF
          · rfl
          · rw [hiwp, hiw_ir, hb]
          · intro _
            exact hemp
    | locked b e =>
        have hpc2 : s.stepSwap.pc = PPC.locked b e := hp
        rw [hp] at h13
        simp only [PcInv] at h13
        obtain ⟨hL, hLr⟩ := h13
        have hne : b ≠ s.tlq.i_read := by
          intro hh
          rw [hh, hRL] at hL
          exact absurd hL (by decide)
        show PcInv s.stepSwap.pc s.stepSwap.tlq s.stepSwap.ring s.stepSwap.gath
        rw [hpc2]
        simp only [PcInv, hred, TLQ.swapBuffers_fst_i_read,
          TLQ.swapBuffers_fst_i_write, TLQ.swapBuffers_fst_iwp,
          TLQ.swapBuffers_fst_ent]
        refine ⟨?_, ?_⟩
        · rw [hst b, if_neg hne]
          exact hL
        · intro hb
          refine ⟨?_, ?_⟩
          · exact hemp
          · rw [hiwp, hiw_ir, hb]
    | rel b =>
        have hpc2 : s.stepSwap.pc = PPC.rel b := hp
        rw [hp] at h13
        simp only [PcInv] at h13
        obtain ⟨hL, hLr⟩ := h13
        have hne : b ≠ s.tlq.i_read := by
          intro hh
          rw [hh, hRL] at hL
          exact absurd hL (by decide)
        show PcInv s.stepSwap.pc s.stepSwap.tlq s.stepSwap.ring s.stepSwap.gath
        rw [hpc2]
        simp only [PcInv, hred, TLQ.swapBuffers_fst_i_read,
          TLQ.swapBuffers_fst_i_write, TLQ.swapBuffers_fst_iwp,
          TLQ.swapBuffers_fst_ent]
        refine ⟨?_, ?_⟩
        · rw [hst b, if_neg hne]
          exact hL
        · intro hb
          refine ⟨?_, ?_⟩
          · exact hemp
          · rw [hiwp, hiw_ir, hb]
    | fin b =>
        have hpc2 : s.stepSwap.pc = PPC.fin b := hp
        rw [hp] at h13
        simp only [PcInv] at h13
        show PcInv s.stepSwap.pc s.stepSwap.tlq s.stepSwap.ring s.stepSwap.gath
        rw [hpc2]
        simp only [PcInv, hred, TLQ.swapBuffers_fst_i_read,
          TLQ.swapBuffers_fst_iwp]
        intro hb
        rw [hiwp, hiw_ir, hb]


theorem inv_stepStartRead {s : Sys} (hI : Inv s) (hin : s.inRead = true)
    (_hnr : s.reading = false) : Inv s.stepStartRead := by
  by_cases hU : s.tlq.st s.tlq.i_read = EntryState.Unlocked
  · obtain ⟨h1, h2, h3, h4, h5, h6, h7, h8, h9, h10, h11, h12, h13⟩ := hI
    have hun : s.tlq.unread_swaps = 1 := h3.mp hin
    have hirw : s.tlq.i_write ≠ s.tlq.i_read := by
      rw [h1]
      exact bool_ne_not _
    have hred : s.stepStartRead =
        { s with
          tlq := s.tlq.setSt s.tlq.i_read EntryState.ReadLock
          reading := true } := by
      simp [Sys.stepStartRead, TLQ.startReadingEntries, hU]
    rw [hred]
    refine ⟨?_, ?_, ?_, ?_, ?_, ?_, ?_, ?_, ?_, ?_, ?_, ?_, ?_⟩
    · simpa using h1
    · simpa using h2
    · simpa using h3
    · simpa using h4
    · intro _
      exact ⟨hin, by simp⟩
    · intro h0
      simp only [TLQ.unread_setSt] at h0
      omega
    · intro h0
      simp only [TLQ.unread_setSt] at h0
      omega
    · simpa [hirw] using h8
    · intro c hcw
      by_cases hcb : c = s.tlq.i_read
      · rw [hcb] at hcw
        simp at hcw
      · simp only [TLQ.st_setSt, if_neg hcb] at hcw
        exact h9 c hcw
    · simpa using h10
    · intro hh
      simpa using h11 hh
    · simpa using h12
    · cases hp : s.pc with
      | idle => simp [PcInv]
      | loop b f e =>
          rw [hp] at h13
          simp only [PcInv] at h13 ⊢
          refine ⟨h13.1, ?_, ?_⟩
          · intro hf
            obtain ⟨hbw, hr, hg⟩ := h13.2.1 hf
            exact ⟨by simpa using hbw, hr, hg⟩
          · intro hb
            have hb' : b = s.tlq.i_read := by simpa using hb
            obtain ⟨hrg, hiwp, _⟩ := h13.2.2 hb'
            refine ⟨hrg, by simpa using hiwp, ?_⟩
            intro habs
            rw [show (s.tlq.setSt s.tlq.i_read EntryState.ReadLock).st
                (s.tlq.setSt s.tlq.i_read EntryState.ReadLock).i_read
                = EntryState.ReadLock from by simp] at habs
            exact absurd habs (by decide)
      | locked b e =>
          rw [hp] at h13
          simp only [PcInv] at h13 ⊢
          obtain ⟨hL, hLr⟩ := h13
          have hne : b ≠ s.tlq.i_read := by
            intro hh
            rw [hh, hU] at hL
            exact absurd hL (by decide)
          refine ⟨by simpa [hne] using hL, ?_⟩
          intro hb
          have hb' : b = s.tlq.i_read := by simpa using hb
          obtain ⟨hemp, hiwp⟩ := hLr hb'
          exact ⟨by simpa using hemp, by simpa using hiwp⟩
      | rel b =>
          rw [hp] at h13
          simp only [PcInv] at h13 ⊢
          obtain ⟨hL, hLr⟩ := h13
          have hne : b ≠ s.tlq.i_read := by
            intro hh
            rw [hh, hU] at hL
            exact absurd hL (by decide)
          refine ⟨by simpa [hne] using hL, ?_⟩
          intro hb
          have hb' : b = s.tlq.i_read := by simpa using hb
          obtain ⟨hemp, hiwp⟩ := hLr hb'
          exact ⟨by simpa using hemp, by simpa using hiwp⟩
      | fin b =>
          rw [hp] at h13
          simp only [PcInv] at h13 ⊢
          intro hb
          have hb' : b = s.tlq.i_read := by simpa using hb
          simpa using h13 hb'
  · have hred : s.stepStartRead = s := by
      simp [Sys.stepStartRead, TLQ.startReadingEntries, hU]
    rw [hred]
    exact hI

theorem inv_stepDrainFin {s : Sys} (hI : Inv s) (hrd : s.reading = true) :
    Inv s.stepDrainFin := by
  obtain ⟨h1, h2, h3, h4, h5, h6, h7, h8, h9, h10, h11, h12, h13⟩ := hI
  obtain ⟨hin, hRL⟩ := h5 hrd
  have hun : s.tlq.unread_swaps = 1 := h3.mp hin
  have hirw : s.tlq.i_write ≠ s.tlq.i_read := by
    rw [h1]
    exact bool_ne_not _
  have hred : s.stepDrainFin.tlq = s.tlq.finishReadingEntries := rfl
  refine ⟨?_, ?_, ?_, ?_, ?_, ?_, ?_, ?_, ?_, ?_, ?_, ?_, ?_⟩
  · show s.stepDrainFin.tlq.i_read = !s.stepDrainFin.tlq.i_write
    rw [hred, TLQ.finishReading_i_read, TLQ.finishReading_i_write]
    exact h1
  · exact h2
  · show false = true ↔ s.stepDrainFin.tlq.unread_swaps = 1
    rw [hred, TLQ.finishReading_unread, hun]
    simp
  · show s.stepDrainFin.tlq.unread_swaps ≤ 1
    rw [hred, TLQ.finishReading_unread]
    omega
  · intro habs
    have habs2 : false = true := habs
    exact absurd habs2 (by decide)
  · intro _
    show s.stepDrainFin.tlq.st s.stepDrainFin.tlq.i_read = EntryState.ReadLock
    rw [hred, TLQ.finishReading_i_read, TLQ.finishReading_st]
    exact hRL
  · intro _
    show s.stepDrainFin.tlq.ent s.stepDrainFin.tlq.i_read = []
    rw [hred, TLQ.finishReading_i_read, TLQ.finishReading_ent]
    simp
  · show s.stepDrainFin.tlq.st s.stepDrainFin.tlq.i_write ≠ EntryState.ReadLock
    rw [hred, TLQ.finishReading_i_write, TLQ.finishReading_st]
    exact h8
  · intro c hcw
    rw [hred, TLQ.finishReading_st] at hcw
    exact h9 c hcw
  · exact h10
  · intro hh
    show s.stepDrainFin.tlq.i_write_prev = s.stepDrainFin.tlq.i_write
    rw [hred, TLQ.finishReading_iwp, TLQ.finishReading_i_write]
    exact h11 hh
  · show (s.del ++ s.tlq.ent s.tlq.i_read)
      ++ s.stepDrainFin.tlq.ent s.stepDrainFin.tlq.i_read
      ++ s.stepDrainFin.tlq.ent s.stepDrainFin.tlq.i_write ++ s.pc.infl = s.sub
    rw [hred, TLQ.finishReading_i_read, TLQ.finishReading_i_write,
      TLQ.finishReading_ent, TLQ.finishReading_ent, if_pos rfl, if_neg hirw]
    rw [← h12]
    simp [List.append_assoc]
  · show PcInv s.pc s.stepDrainFin.tlq s.ring s.gath
    cases hp : s.pc with
    | idle => simp [PcInv]
    | loop b f e =>
        rw [hp] at h13
        simp only [PcInv] at h13 ⊢
        refine ⟨h13.1, ?_, ?_⟩
        · intro hf
          obtain ⟨hbw, hr, hg⟩ := h13.2.1 hf
          rw [hred, TLQ.finishReading_i_write]
          exact ⟨hbw, hr, hg⟩
        · intro hb
          rw [hred, TLQ.finishReading_i_read] at hb
          obtain ⟨hrg, hiwp, _⟩ := h13.2.2 hb
          refine ⟨hrg, ?_, ?_⟩
          · rw [hred, TLQ.finishReading_iwp]
            exact hiwp
          · intro habs
            rw [hred, TLQ.finishReading_i_read, TLQ.finishReading_st, ← hb] at habs
            rw [hb, hRL] at habs
            exact absurd habs (by decide)
    | locked b e =>
        rw [hp] at h13
        simp only [PcInv] at h13 ⊢
        obtain ⟨hL, hLr⟩ := h13
        have hne : b ≠ s.tlq.i_read := by
          intro hh
          rw [hh, hRL] at hL
          exact absurd hL (by decide)
        refine ⟨?_, ?_⟩
        · rw [hred, TLQ.finishReading_st]
          exact hL
        · intro hb
          rw [hred, TLQ.finishReading_i_read] at hb
          exact absurd hb hne
    | rel b =>
        rw [hp] at h13
        simp only [PcInv] at h13 ⊢
        obtain ⟨hL, hLr⟩ := h13
        have hne : b ≠ s.tlq.i_read := by
          intro hh
          rw [hh, hRL] at hL
          exact absurd hL (by decide)
        refine ⟨?_, ?_⟩
        · rw [hred, TLQ.finishReading_st]
          exact hL
        · intro hb
          rw [hred, TLQ.finishReading_i_read] at hb
          exact absurd hb hne
    | fin b =>
        rw [hp] at h13
        simp only [PcInv] at h13 ⊢
        intro hb
        rw [hred, TLQ.finishReading_i_read] at hb
        rw [hred, TLQ.finishReading_iwp]
        exact h13 hb

/-- Every step of the protocol preserves the invariant. -/
theorem inv_step {s s' : Sys} (hI : Inv s) (hs : Step s s') : Inv s' := by
  cases hs with
  | startLog e h => exact inv_stepStartLog e hI h
  | casTry b f e h => exact inv_stepCas b f e hI h
  | append b e h => exact inv_stepAppend b e hI h
  | release b h => exact inv_stepRelease b hI h
  | finish b h => exact inv_stepFinish b hI h
  | gather h => exact inv_stepGather hI h
  | swap h hc => exact inv_stepSwap hI h hc
  | startRead h hnr => exact inv_stepStartRead hI h hnr
  | drainFin h => exact inv_stepDrainFin hI h

/-- The invariant holds in every reachable state. -/
theorem inv_reachable {s : Sys} (h : Reachable s) : Inv s := by
  induction h with
  | init => exact inv_init
  | step _ hs ih => exact inv_step ih hs

/-!
Sequential models of the remaining components of `logging.cc`:
the swap-request ring consumer (`GetTlsLoggerThatRequestedSwap`,
`GatherNewSwapRequests`), the registry (`RegisterTlsLogger`), the
orphanage (`UnRegisterTlsLogger`, `CollectTlsLoggerStats`, the end of the
`IOThread` iteration), and the control calls (`StopLogging`,
`StartNewTrace`, `StopTracing`).  These all run on a single thread (the
registry under its mutex), so they are embedded as plain functions.
Ring slot words (`uintptr_t`) are modelled as `Nat`: a `TlsLogger*` is an
even number (pointers are at least 2-byte aligned), a writable tag is
`2 * id + 1`.
-/

/-- `SwapRequestSlotIsWritableValue` (lines 34-40): `(id << 1) | 1`. -/
def swapRequestSlotIsWritableValue (id : Nat) : Nat := 2 * id + 1

/-- `SwapRequestSlotIsReadable` (lines 42-45): LSB not set. -/
def swapRequestSlotIsReadable (v : Nat) : Bool := v % 2 == 0

/-- Consumer-side state of the swap-request ring: the `2·M` slots
(`thread_swap_request_slots_`), the consumer cursor
(`swap_request_id_read_`), the retry list (`swap_request_slots_to_retry_`,
entries are `SlotRetry {slot, next_id}` pairs) and the contention
counters. -/
structure Ring where
  slots : List Nat
  swap_request_id_read : Nat
  retry : List (Nat × Nat)
  retry_count : Nat
  reencounter_count : Nat
deriving DecidableEq, Repr

/-- `Logger::GetTlsLoggerThatRequestedSwap` (lines 280-294): load the slot;
if it holds a pointer (readable), CAS it back to the writable tag of
`next_id` and return the pointer, else return null.  In this
single-consumer model the CAS always succeeds (the source asserts on
failure). -/
def getTlsLoggerThatRequestedSwap (slots : List Nat) (slot next_id : Nat) :
    Option Nat × List Nat :=
  let v := slots.getD slot 0
  if swapRequestSlotIsReadable v then
    (some v, slots.set slot (swapRequestSlotIsWritableValue next_id))
  else (none, slots)

/-- The lambda of the `find_if` in `GatherNewSwapRequests` followed by the
`it->next_id = next_id` update: replace the first retry entry for `slot`
by `(slot, next_id)`. -/
def updateFirstRetry : List (Nat × Nat) → Nat → Nat → List (Nat × Nat)
  | [], _, _ => []
  | p :: rest, slot, nid =>
      if p.1 = slot then (slot, nid) :: rest
      else p :: updateFirstRetry rest slot nid

/-- One iteration of the loop of `Logger::GatherNewSwapRequests`
(lines 317-340) at `id = swap_request_id_read_`:
`slot = id % slots.size()`, `next_id = id + slots.size()`; a readable slot
is swept (pointer appended to `out`), an unreadable one goes to the retry
list, deduplicated per slot. -/
def gatherOne (r : Ring) (out : List Nat) : Ring × List Nat :=
  let id := r.swap_request_id_read
  let slot := id % r.slots.length
  let next_id := id + r.slots.length
  let g := getTlsLoggerThatRequestedSwap r.slots slot next_id
  match g.1 with
  | some p =>
      ({ r with slots := g.2, swap_request_id_read := id + 1 }, out ++ [p])
  | none =>
      if (r.retry.find? (fun p => p.1 == slot)).isSome then
        ({ r with
            retry := updateFirstRetry r.retry slot next_id
            retry_count := r.retry_count + 1
            reencounter_count := r.reencounter_count + 1
            swap_request_id_read := id + 1 }, out)
      else
        ({ r with
            retry := r.retry ++ [(slot, next_id)]
            retry_count := r.retry_count + 1
            swap_request_id_read := id + 1 }, out)

/-- The whole loop of `GatherNewSwapRequests`, iterated until the cursor
reaches the snapshot `swap_request_end` of `swap_request_id_`. -/
def gatherLoop : Nat → Ring → List Nat → Ring × List Nat
  | 0, r, out => (r, out)
  | n + 1, r, out => gatherLoop n (gatherOne r out).1 (gatherOne r out).2

/-- `Logger::GatherNewSwapRequests` (lines 315-341). -/
def gatherNewSwapRequests (r : Ring) (swap_request_end : Nat)
    (out : List Nat) : Ring × List Nat :=
  gatherLoop (swap_request_end - r.swap_request_id_read) r out

/-- Specification-side restatement of one gather iteration, written from
the spec text: slot `id mod 2·M`; a readable slot is CASed to the
writable tag of `id + 2·M` and its pointer appended; otherwise
`(slot, id + 2·M)` is recorded in the retry list unless an entry for that
slot exists, in which case only that entry's `next_id` is updated. -/
def gatherOneSpec (M : Nat) (r : Ring) (out : List Nat) : Ring × List Nat :=
  let id := r.swap_request_id_read
  let slot := id % (2 * M)
  let next_id := id + 2 * M
  let v := r.slots.getD slot 0
  if swapRequestSlotIsReadable v then
    ({ r with
        slots := r.slots.set slot (swapRequestSlotIsWritableValue next_id)
        swap_request_id_read := id + 1 }, out ++ [v])
  else if (r.retry.find? (fun p => p.1 == slot)).isSome then
    ({ r with
        retry := updateFirstRetry r.retry slot next_id
        retry_count := r.retry_count + 1
        reencounter_count := r.reencounter_count + 1
        swap_request_id_read := id + 1 }, out)
  else
    ({ r with
        retry := r.retry ++ [(slot, next_id)]
        retry_count := r.retry_count + 1
        swap_request_id_read := id + 1 }, out)

/-- `Logger::RegisterTlsLogger` (lines 152-160): warn synchronously when
the registered set already holds `max_threads_to_log` or more members,
then insert unconditionally.  Returns the new set and whether the warning
was emitted. -/
def registerTlsLogger (max_threads_to_log : Nat) (registered : Finset Nat)
    (t : Nat) : Finset Nat × Bool :=
  let warn := decide (max_threads_to_log ≤ registered.card)
  (insert t registered, warn)

/-- State of the registry, the orphanage, and the consumer-private pieces
they feed (`tls_loggers_registerd_`, `tls_logger_orphans_`,
`orphans_to_destroy_`, the `tls_total_*` counters, and - abstractly - the
set of queues through which a final deferred action was submitted). -/
structure RegState where
  registered : Finset Nat
  orphans : List Nat
  orphans_to_destroy : List Nat
  tls_total_log_cas_fail_count : Nat
  tls_total_swap_buffers_slot_retry_count : Nat
  finalActionSubmitted : List Nat
deriving DecidableEq

/-- Observable events of `Logger::UnRegisterTlsLogger`, in program order. -/
inductive REv where
  | orphanAdded (t : Nat)
  | registeredErased (t : Nat)
  | finalActionSubmitted (t : Nat)
deriving DecidableEq, Repr

/-- `Logger::UnRegisterTlsLogger` (lines 165-187): move the queue to the
front of the orphanage, then erase it from the registered set, then submit
one final deferred action through the orphan's own queue.  The returned
event list records the order of the three effects. -/
def unRegisterTlsLogger (L : RegState) (t : Nat) : RegState × List REv :=
  let L1 := { L with orphans := t :: L.orphans }
  let L2 := { L1 with registered := L1.registered.erase t }
  let L3 := { L2 with finalActionSubmitted := L2.finalActionSubmitted ++ [t] }
  (L3, [REv.orphanAdded t, REv.registeredErased t, REv.finalActionSubmitted t])

/-- `Logger::CollectTlsLoggerStats` (lines 189-193): drain both per-queue
contention counters into the consumer totals. -/
def collectTlsLoggerStats (L : RegState) (q : TLQ) : RegState × TLQ :=
  let r1 := q.reportLogCasFailCount
  let r2 := r1.2.reportSwapBuffersSlotRetryCount
  ({ L with
      tls_total_log_cas_fail_count := L.tls_total_log_cas_fail_count + r1.1
      tls_total_swap_buffers_slot_retry_count :=
        L.tls_total_swap_buffers_slot_retry_count + r2.1 }, r2.2)

/-- The final deferred action submitted by `UnRegisterTlsLogger`
(lines 183-186), run on the I/O thread: collect the orphan's stats and
append its handle to `orphans_to_destroy_`. -/
def runOrphanFinalAction (L : RegState) (t : Nat) (q : TLQ) :
    RegState × TLQ :=
  let c := collectTlsLoggerStats L q
  ({ c.1 with orphans_to_destroy := c.1.orphans_to_destroy ++ [t] }, c.2)

/-- Phases of one `Logger::IOThread` loop iteration (lines 343-422), in
source order; the orphan-destruction phase only runs when
`orphans_to_destroy_` is nonempty (line 413). -/
inductive IOPh where
  | waitPhase
  | gatherPhase
  | processPhase
  | flushPhase
  | destroyPhase
deriving DecidableEq, Repr

/-- The sequence of phases of one I/O-thread iteration. -/
def ioIterationPhases (destroyNonempty : Bool) : List IOPh :=
  [IOPh.waitPhase, IOPh.gatherPhase, IOPh.processPhase, IOPh.flushPhase]
    ++ (if destroyNonempty then [IOPh.destroyPhase] else [])

/-- The orphan-retirement tail of the I/O loop (lines 413-421): under the
orphanage mutex, erase every marked handle from `tls_logger_orphans_` and
clear `orphans_to_destroy_`. -/
def retireOrphans (L : RegState) : RegState :=
  if L.orphans_to_destroy.isEmpty then L
  else
    { L with
      orphans := L.orphans.filter (fun o => !(L.orphans_to_destroy.contains o))
      orphans_to_destroy := [] }

/-- Observable events of the control calls `StopLogging` (lines 216-256),
`StartNewTrace` (lines 258-261) and `StopTracing` (lines 263-269). -/
inductive CEv where
  | logErrorSync
  | submitStatsAction
  | submitBarrierAction
  | waitOneShotSignal
  | setLogFilesToStderr
  | asyncStartNewTrace
deriving DecidableEq, Repr

/-- `Logger::StopLogging` (lines 216-256): on the I/O thread, a synchronous
error and an early return; otherwise submit the stats detail action, then
submit a barrier action that fulfils a one-shot promise, wait on its
future, and redirect the log files to stderr. -/
def stopLoggingEvents (onIoThread : Bool) : List CEv :=
  if onIoThread then [CEv.logErrorSync]
  else
    [CEv.submitStatsAction, CEv.submitBarrierAction, CEv.waitOneShotSignal,
     CEv.setLogFilesToStderr]

/-- `Logger::StartNewTrace` (lines 258-261): a direct call to
`async_logger_.StartNewTrace`; nothing is submitted through the logging
path and nothing is waited on. -/
def startNewTraceEvents : List CEv := [CEv.asyncStartNewTrace]

/-- `Logger::StopTracing` (lines 263-269): submit a barrier action
fulfilling a one-shot promise, wait on its future, then call
`async_logger_.StartNewTrace(nullptr, now)`. -/
def stopTracingEvents : List CEv :=
  [CEv.submitBarrierAction, CEv.waitOneShotSignal, CEv.asyncStartNewTrace]

/-!
Per-claim theorems.
-/

/-- C1: in every reachable state of the producer/consumer protocol the CAS
loop of `TlsLogger::Log` has suffered at most 2 failures of its
`Unlocked → WriteLock` CAS (so the loop succeeds within at most 3
attempts), and no error/assert branch (`cas_fail_count >= 3`, a failed
unlock CAS, or a failed `SwapBuffers` CAS) has ever fired: under the
single-consumer discipline the error branch is unreachable. -/
theorem submit_cas_attempts_bounded (s : Sys) (h : Reachable s) :
    (∀ b f e, s.pc = PPC.loop b f e → f ≤ 2) ∧ s.err = false := by
  have hI := inv_reachable h
  refine ⟨?_, hI.no_err⟩
  intro b f e hpc
  have h13 := hI.pc_inv
  rw [hpc] at h13
  simp only [PcInv] at h13
  obtain ⟨hf, _⟩ := h13
  omega

/-- Witness for C1: the theorem applied at the initial state. -/
theorem submit_cas_attempts_bounded_witness :
    (∀ b f e, Sys.init.pc = PPC.loop b f e → f ≤ 2)
    ∧ Sys.init.err = false :=
  submit_cas_attempts_bounded Sys.init Reachable.init

/-- C2: in every reachable state, the sequence of entries the I/O thread
has invoked against `AsyncLog` (`del`), followed by the pending read
buffer, the pending write buffer, and the producer's in-flight entry, is
exactly the submission sequence (`sub`).  Hence the delivered sequence is
always a prefix of the submission sequence (no loss, no duplication, no
reordering within this producer), and when the queue is fully drained the
two sequences are equal. -/
theorem producer_fifo_delivery (s : Sys) (h : Reachable s) :
    s.del ++ s.tlq.ent s.tlq.i_read ++ s.tlq.ent s.tlq.i_write
      ++ s.pc.infl = s.sub
    ∧ s.del <+: s.sub
    ∧ (s.tlq.ent s.tlq.i_read = [] → s.tlq.ent s.tlq.i_write = [] →
        s.pc.infl = [] → s.del = s.sub) := by
  have ho := (inv_reachable h).order
  refine ⟨ho, ?_, ?_⟩
  · refine ⟨s.tlq.ent s.tlq.i_read ++ (s.tlq.ent s.tlq.i_write
      ++ s.pc.infl), ?_⟩
    rw [← ho]
    simp [List.append_assoc]
  · intro e1 e2 e3
    rw [e1, e2, e3] at ho
    simpa using ho

/-- Witness for C2: the theorem applied at the initial state. -/
theorem producer_fifo_delivery_witness :
    Sys.init.del ++ Sys.init.tlq.ent Sys.init.tlq.i_read
      ++ Sys.init.tlq.ent Sys.init.tlq.i_write
      ++ Sys.init.pc.infl = Sys.init.sub
    ∧ Sys.init.del <+: Sys.init.sub
    ∧ (Sys.init.tlq.ent Sys.init.tlq.i_read = [] →
        Sys.init.tlq.ent Sys.init.tlq.i_write = [] →
        Sys.init.pc.infl = [] → Sys.init.del = Sys.init.sub) :=
  producer_fifo_delivery Sys.init Reachable.init

theorem stepCas_tlq_unread (s : Sys) (b : Bool) (f e : Nat) :
    (s.stepCas b f e).tlq.unread_swaps = s.tlq.unread_swaps := by
  by_cases h : s.tlq.st b = EntryState.Unlocked <;>
    simp [Sys.stepCas, TLQ.logCasAttempt, h]

theorem stepRelease_tlq_unread (s : Sys) (b : Bool) :
    (s.stepRelease b).tlq.unread_swaps = s.tlq.unread_swaps := by
  by_cases h : s.tlq.st b = EntryState.WriteLock <;>
    simp [Sys.stepRelease, TLQ.logRelease, h]

theorem stepFinish_tlq_unread (s : Sys) (b : Bool) :
    (s.stepFinish b).tlq.unread_swaps = s.tlq.unread_swaps := by
  by_cases h : s.tlq.i_write_prev = b <;>
    simp [Sys.stepFinish, TLQ.logFinish, h]

theorem stepStartRead_tlq_unread (s : Sys) :
    s.stepStartRead.tlq.unread_swaps = s.tlq.unread_swaps := by
  by_cases h : s.tlq.st s.tlq.i_read = EntryState.Unlocked <;>
    simp [Sys.stepStartRead, TLQ.startReadingEntries, h]

/-- C6: `unread_swaps` of a queue is 0 or 1 in every reachable state;
moreover along any step of the protocol it increases only through the
`SwapBuffers` call that the I/O thread performs after
`ReadBufferHasBeenConsumed` returned true (so never while a prior swap is
undrained - such a queue is deferred instead), and it decreases only
through `FinishReadingEntries`. -/
theorem unread_swaps_zero_or_one :
    (∀ s : Sys, Reachable s → s.tlq.unread_swaps ≤ 1)
    ∧ (∀ s s' : Sys, Step s s' →
        s.tlq.unread_swaps < s'.tlq.unread_swaps →
        s.tlq.readBufferHasBeenConsumed = true
          ∧ s'.tlq.unread_swaps = s.tlq.unread_swaps + 1)
    ∧ (∀ s s' : Sys, Step s s' →
        s'.tlq.unread_swaps < s.tlq.unread_swaps →
        s.reading = true ∧ s'.tlq = s.tlq.finishReadingEntries) := by
  refine ⟨fun s h => (inv_reachable h).unread_le, ?_, ?_⟩
  · intro s s' hs hlt
    cases hs with
    | startLog e h => exact absurd hlt (by simp [Sys.stepStartLog])
    | casTry b f e h => rw [stepCas_tlq_unread] at hlt; omega
    | append b e h => exact absurd hlt (by simp [Sys.stepAppend, TLQ.logAppend])
    | release b h => rw [stepRelease_tlq_unread] at hlt; omega
    | finish b h => rw [stepFinish_tlq_unread] at hlt; omega
    | gather h => exact absurd hlt (by simp [Sys.stepGather])
    | swap h hc => exact ⟨hc, by simp [Sys.stepSwap]⟩
    | startRead h hnr => rw [stepStartRead_tlq_unread] at hlt; omega
    | drainFin h =>
        have : s.stepDrainFin.tlq.unread_swaps = s.tlq.unread_swaps - 1 := by
          simp [Sys.stepDrainFin]
        omega
  · intro s s' hs hlt
    cases hs with
    | startLog e h => exact absurd hlt (by simp [Sys.stepStartLog])
    | casTry b f e h => rw [stepCas_tlq_unread] at hlt; omega
    | append b e h => exact absurd hlt (by simp [Sys.stepAppend, TLQ.logAppend])
    | release b h => rw [stepRelease_tlq_unread] at hlt; omega
    | finish b h => rw [stepFinish_tlq_unread] at hlt; omega
    | gather h => exact absurd hlt (by simp [Sys.stepGather])
    | swap h hc =>
        have : s.stepSwap.tlq.unread_swaps = s.tlq.unread_swaps + 1 := by
          simp [Sys.stepSwap]
        omega
    | startRead h hnr => rw [stepStartRead_tlq_unread] at hlt; omega
    | drainFin h => exact ⟨h, rfl⟩

/-- Witness for C6: the bound at the initial state, and the increment
characterization at a concrete swap step. -/
theorem unread_swaps_zero_or_one_witness :
    Sys.init.tlq.unread_swaps ≤ 1
    ∧ ({ Sys.init with gath := true } : Sys).tlq.readBufferHasBeenConsumed
        = true
    ∧ ({ Sys.init with gath := true } : Sys).stepSwap.tlq.unread_swaps
        = ({ Sys.init with gath := true } : Sys).tlq.unread_swaps + 1 :=
  ⟨unread_swaps_zero_or_one.1 Sys.init Reachable.init,
   (unread_swaps_zero_or_one.2.1 _ _ (Step.swap _ rfl (by decide))
     (by decide)).1,
   (unread_swaps_zero_or_one.2.1 _ _ (Step.swap _ rfl (by decide))
     (by decide)).2⟩

/-- C4: at the end of a `TlsLogger::Log` call that wrote buffer `b`, a
swap request is announced on the ring exactly when `b` differs from
`i_write_prev_`; in that case `i_write_prev_` is updated to `b`, and
otherwise the queue state is left entirely unchanged and no ring request
is made. -/
theorem log_swap_request_iff (s : Sys) (b : Bool) :
    (s.stepFinish b).ring = (s.ring || (s.tlq.i_write_prev != b))
    ∧ (s.stepFinish b).tlq =
        (if s.tlq.i_write_prev = b then s.tlq
         else { s.tlq with i_write_prev := b })
    ∧ (s.stepFinish b).pc = PPC.idle := by
  by_cases hEq : s.tlq.i_write_prev = b <;>
    simp [Sys.stepFinish, TLQ.logFinish, hEq]

/-- C3: under the precondition `state[i_read] = ReadLock` and
`unread_swaps = 0`, `TlsLogger::SwapBuffers` performs exactly: the
`ReadLock → Unlocked` CAS on the read buffer succeeds, the other buffer's
state is untouched, `i_write` becomes the old `i_read`, `i_read` flips,
and `unread_swaps` becomes 1. -/
theorem swapBuffers_effect (t : TLQ)
    (h1 : t.st t.i_read = EntryState.ReadLock)
    (h2 : t.unread_swaps = 0) :
    t.swapBuffers.2 = true
    ∧ t.swapBuffers.1.st t.i_read = EntryState.Unlocked
    ∧ t.swapBuffers.1.st (!t.i_read) = t.st (!t.i_read)
    ∧ t.swapBuffers.1.i_write = t.i_read
    ∧ t.swapBuffers.1.i_read = !t.i_read
    ∧ t.swapBuffers.1.unread_swaps = t.unread_swaps + 1
    ∧ t.swapBuffers.1.unread_swaps = 1 := by
  refine ⟨by simp [h1], ?_, ?_, rfl, rfl, by simp, by simp [h2]⟩
  · rw [TLQ.swapBuffers_fst_st_rl _ _ h1, if_pos rfl]
  · rw [TLQ.swapBuffers_fst_st_rl _ _ h1,
      if_neg (Ne.symm (bool_ne_not t.i_read))]

/-- Witness for C3: the effect at a freshly constructed queue. -/
theorem swapBuffers_effect_witness :
    TLQ.init.st TLQ.init.i_read = EntryState.ReadLock
    ∧ TLQ.init.unread_swaps = 0
    ∧ (TLQ.init.swapBuffers.2 = true
      ∧ TLQ.init.swapBuffers.1.st TLQ.init.i_read = EntryState.Unlocked
      ∧ TLQ.init.swapBuffers.1.st (!TLQ.init.i_read)
          = TLQ.init.st (!TLQ.init.i_read)
      ∧ TLQ.init.swapBuffers.1.i_write = TLQ.init.i_read
      ∧ TLQ.init.swapBuffers.1.i_read = !TLQ.init.i_read
      ∧ TLQ.init.swapBuffers.1.unread_swaps = TLQ.init.unread_swaps + 1
      ∧ TLQ.init.swapBuffers.1.unread_swaps = 1) :=
  ⟨by decide, by decide, swapBuffers_effect TLQ.init (by decide) (by decide)⟩

/-- C10: `TlsLogger::SwapBuffers` leaves both entry buffers unchanged, does
not touch the state word of the buffer other than the old read buffer, and
leaves `i_write_prev` and both contention counters unchanged - only
`state[i_read]`, `i_write`, `i_read` and `unread_swaps` are modified. -/
theorem swapBuffers_frame (t : TLQ) :
    t.swapBuffers.1.entries0 = t.entries0
    ∧ t.swapBuffers.1.entries1 = t.entries1
    ∧ t.swapBuffers.1.st (!t.i_read) = t.st (!t.i_read)
    ∧ t.swapBuffers.1.i_write_prev = t.i_write_prev
    ∧ t.swapBuffers.1.log_cas_fail_count = t.log_cas_fail_count
    ∧ t.swapBuffers.1.swap_buffers_slot_retry_count
        = t.swap_buffers_slot_retry_count := by
  refine ⟨by simp, by simp, ?_, by simp, by simp, by simp⟩
  by_cases h : t.st t.i_read = EntryState.ReadLock
  · rw [TLQ.swapBuffers_fst_st_rl _ _ h,
      if_neg (Ne.symm (bool_ne_not t.i_read))]
  · simp [TLQ.swapBuffers, TLQ.st_swapShape, h]

/-- C5: one gather iteration of `Logger::GatherNewSwapRequests` behaves
exactly as specified: with `slot = id mod 2·M`, a readable slot (LSB 0) is
CASed back to the writable tag of `id + 2·M` and its pointer appended to
the output; an unreadable slot is recorded as `(slot, id + 2·M)` in the
retry list, updating only `next_id` of an existing entry for that slot
rather than adding a duplicate. -/
theorem gather_per_id (M : Nat) (r : Ring) (out : List Nat)
    (hlen : r.slots.length = 2 * M) :
    gatherOne r out = gatherOneSpec M r out := by
  unfold gatherOne gatherOneSpec getTlsLoggerThatRequestedSwap
  rw [hlen]
  by_cases hv : swapRequestSlotIsReadable
      ((r.slots[r.swap_request_id_read % (2 * M)]?).getD 0) = true
  · simp [List.getD, hv]
  · simp [List.getD, hv]

/-- Witness for C5: a two-slot ring (M = 1) holding the writable tags of
ids 0 and 1. -/
theorem gather_per_id_witness :
    (Ring.mk [1, 3] 0 [] 0 0).slots.length = 2 * 1
    ∧ gatherOne (Ring.mk [1, 3] 0 [] 0 0) []
        = gatherOneSpec 1 (Ring.mk [1, 3] 0 [] 0 0) [] :=
  ⟨by decide, gather_per_id 1 (Ring.mk [1, 3] 0 [] 0 0) [] (by decide)⟩

/-- C7: `UnRegisterTlsLogger` performs, in order: move the queue into the
orphanage (front), erase it from the registered set, submit the final
deferred action through the orphan's own queue; the final action, run on
the I/O thread, adds both contention counters to the totals and appends
the orphan handle to `orphans_to_destroy_`; and one I/O loop iteration
runs its phases in source order with orphan destruction last, after the
drain (process) and flush phases, erasing exactly the marked handles. -/
theorem unregister_retire_order (L : RegState) (t u : Nat) (q : TLQ) :
    (unRegisterTlsLogger L t).2
      = [REv.orphanAdded t, REv.registeredErased t,
         REv.finalActionSubmitted t]
    ∧ (unRegisterTlsLogger L t).1.orphans = t :: L.orphans
    ∧ t ∉ (unRegisterTlsLogger L t).1.registered
    ∧ (unRegisterTlsLogger L t).1.finalActionSubmitted
        = L.finalActionSubmitted ++ [t]
    ∧ (runOrphanFinalAction L u q).1.orphans_to_destroy
        = L.orphans_to_destroy ++ [u]
    ∧ (runOrphanFinalAction L u q).1.tls_total_log_cas_fail_count
        = L.tls_total_log_cas_fail_count + q.log_cas_fail_count
    ∧ (runOrphanFinalAction L u q).1.tls_total_swap_buffers_slot_retry_count
        = L.tls_total_swap_buffers_slot_retry_count
            + q.swap_buffers_slot_retry_count
    ∧ ioIterationPhases true
        = [IOPh.waitPhase, IOPh.gatherPhase, IOPh.processPhase,
           IOPh.flushPhase, IOPh.destroyPhase]
    ∧ ioIterationPhases false
        = [IOPh.waitPhase, IOPh.gatherPhase, IOPh.processPhase,
           IOPh.flushPhase]
    ∧ retireOrphans L
        = (if L.orphans_to_destroy.isEmpty then L
           else { L with
             orphans := L.orphans.filter
               (fun o => !(L.orphans_to_destroy.contains o))
             orphans_to_destroy := [] }) := by
  refine ⟨rfl, rfl, ?_, rfl, rfl, rfl, rfl, rfl, rfl, rfl⟩
  exact Finset.not_mem_erase t _

/-- C8 counterexample: `Logger::StartNewTrace` does not submit a barrier
action and does not wait on a one-shot signal - it only forwards to
`async_logger_.StartNewTrace` - so the claim that the barrier-wait
pattern applies to all three of `StopLogging`, `StartNewTrace`,
`StopTracing` is false. -/
theorem startNewTrace_no_barrier :
    CEv.submitBarrierAction ∉ startNewTraceEvents
    ∧ CEv.waitOneShotSignal ∉ startNewTraceEvents
    ∧ startNewTraceEvents = [CEv.asyncStartNewTrace] := by
  decide

/-- C8 amended: `StopLogging` (when not called from the I/O thread) and
`StopTracing` each submit a barrier action and then wait on its one-shot
signal before returning; `StartNewTrace` performs a direct call to
`async_logger_.StartNewTrace` with no barrier; `StopLogging` from the I/O
thread only reports a synchronous error. -/
theorem stop_calls_barrier_wait_pattern :
    List.Sublist [CEv.submitBarrierAction, CEv.waitOneShotSignal]
      (stopLoggingEvents false)
    ∧ List.Sublist [CEv.submitBarrierAction, CEv.waitOneShotSignal]
      stopTracingEvents
    ∧ stopLoggingEvents true = [CEv.logErrorSync]
    ∧ startNewTraceEvents = [CEv.asyncStartNewTrace] := by
  refine ⟨?_, ?_, rfl, rfl⟩ <;> decide

/-- C9: `RegisterTlsLogger` always inserts the queue into the registered
set (never refusing, and keeping all previous members), and it emits the
synchronous warning exactly when the set already holds
`max_threads_to_log` or more members at the time of the call. -/
theorem register_never_refused (M : Nat) (reg : Finset Nat) (t u : Nat) :
    t ∈ (registerTlsLogger M reg t).1
    ∧ (u ∈ reg → u ∈ (registerTlsLogger M reg t).1)
    ∧ ((registerTlsLogger M reg t).2 = true ↔ M ≤ reg.card) := by
  refine ⟨Finset.mem_insert_self t reg,
    fun hu => Finset.mem_insert_of_mem hu, ?_⟩
  simp [registerTlsLogger]

/-- Witness for C9 at a concrete one-element registry already at
capacity. -/
theorem register_never_refused_witness :
    3 ∈ (registerTlsLogger 1 {5} 3).1
    ∧ (5 ∈ ({5} : Finset Nat) → 5 ∈ (registerTlsLogger 1 {5} 3).1)
    ∧ ((registerTlsLogger 1 {5} 3).2 = true ↔ 1 ≤ ({5} : Finset Nat).card) :=
  register_never_refused 1 {5} 3 5

end MlperfLogging
